import Mathlib

/-!
Verification of the reconciliation and synchronization orchestrator of the
`aur` helper (`src/main.go`).  The Go code is shallowly embedded: pure logic
becomes Lean functions, the global flag set and every external collaborator
(libalpm, makepkg, git, repo-add) become an explicit environment of
functions, and process-exit control flow becomes explicit result values.
-/

namespace Aur

/-- Name of the local repository, the global `dbname = "aur"` of `main.go`. -/
def dbname : String := "aur"

/-- `strings.HasSuffix s t` of the Go standard library.  Stated on the
character lists underlying the strings; for the ASCII suffix the code uses
this agrees with Go byte-level slicing. -/
def hasSuffixB (s t : String) : Bool := t.data.isSuffixOf s.data

/-- `strings.HasPrefix s t` of the Go standard library, on character
lists; for the ASCII prefixes the code uses this agrees with Go byte-level
slicing. -/
def hasPrefixB (s t : String) : Bool := t.data.isPrefixOf s.data

/-- Remote package metadata record, the `Package` struct of `main.go`.
`Popularity` is a `float64` in the source; it is modelled as `Rat`, which is
exact on the comparisons and equality tests the code performs.  `OldVersion`
is the locally observed version filled in during reconciliation; fetched
records carry its zero value, the empty string. -/
structure Package where
  Description : String := ""
  Maintainer : String := ""
  Name : String := ""
  NumVotes : Int := 0
  OutOfDate : Int := 0
  PackageBase : String := ""
  Popularity : Rat := 0
  Version : String := ""
  OldVersion : String := ""
deriving DecidableEq, Repr

/-- The mutable flag set of `main.go` together with its external
collaborators, threaded as an explicit environment: `force`, `devel`,
`noedit` are the global flags; `installed n` is `alpm_db_get_pkg` followed
by `alpm_pkg_get_version` (`none` when `n` is not installed); `vercmp` is
`alpm_pkg_vercmp`; `vcsVersion b n` is `VCSVersion(b)[n]`, the makepkg
source-inspection version map of build base `b` looked up at package name
`n` (a Go map lookup yields the empty string when the key is absent, hence
a total function). -/
structure Env where
  force : Bool
  devel : Bool
  noedit : Bool
  installed : String → Option String
  vercmp : String → String → Int
  vcsVersion : String → String → String

/-- Per-record reconciliation step, from the loop body of `prepare`
(`main.go` lines 160-167): when the package is installed, optionally
override the remote version of a devel (`-git`) package with the
source-inspected version, and record the locally observed version; when it
is not installed the record is returned unchanged (its `OldVersion` keeps
the zero value it was fetched with). -/
def reconcileRecord (e : Env) (r : Package) : Package :=
  match e.installed r.Name with
  | some old =>
      let v := if e.devel && hasSuffixB r.Name "-git" then e.vcsVersion r.PackageBase r.Name
               else r.Version
      { r with Version := v, OldVersion := old }
  | none => r

/-- Staleness test of `prepare` (`main.go` line 168): outdated iff the
force flag is set or the comparator judges the (possibly overridden)
remote version strictly newer than the locally observed one. -/
def isOutdated (e : Env) (r : Package) : Bool :=
  e.force || decide (0 < e.vercmp r.Version r.OldVersion)

/-- The outdated set accumulated by the reconciliation loop of `prepare`
(`main.go` lines 160-171), in fetch order. -/
def outdatedList (e : Env) (res : List Package) : List Package :=
  (res.map (reconcileRecord e)).filter (isOutdated e)

/-- The unresolved-name set of `prepare` (`main.go` lines 135-150): only
computed when the response length differs from the request length; the Go
code materializes the requested names as a map (here: `dedup`) and deletes
every name the response covers.  Go map iteration order is unspecified, so
the set is determinized as a filtered list; membership is what matters. -/
def missingNames (names : List String) (res : List Package) : List String :=
  if names.length = res.length then []
  else names.dedup.filter (fun n => !(res.any (fun r => r.Name == n)))

/-- Result of `prepare`: `fatal` is `log.Fatal("target not found: ...")`,
`nothingToDo` is the `os.Exit(0)` path printing "There is nothing to do",
and `ok` is a normal return of the outdated set. -/
inductive PrepareResult where
  | fatal (missing : List String)
  | nothingToDo
  | ok (outdated : List Package)
deriving DecidableEq, Repr

/-- Ordering used by the table-rendering sort of `prepare` (`main.go` line
192): `sort.Slice` with strict less `Name < Name`, whose postcondition is
sortedness under the complement of the less function, the total order
`Name ≤ Name`. -/
def nameLe (p q : Package) : Prop := p.Name.data ≤ q.Name.data

instance instDecNameLe : DecidableRel nameLe :=
  fun p q => inferInstanceAs (Decidable (p.Name.data ≤ q.Name.data))

instance instTotalNameLe : IsTotal Package nameLe :=
  ⟨fun p q => le_total p.Name.data q.Name.data⟩

instance instTransNameLe : IsTrans Package nameLe :=
  ⟨fun _ _ _ h h2 => le_trans h h2⟩

/-- The in-place sort of the outdated slice before it is returned
(`main.go` line 192). -/
def sortByName (l : List Package) : List Package := List.insertionSort nameLe l

/-- `prepare` (`main.go` lines 132-206), with the already-fetched response
`res` passed in (the network fetch is the external `fetch`).  The
out-of-date and orphan warnings of lines 151-159 are print-only and carry
no data flow, so they are not modelled. -/
def prepare (e : Env) (names : List String) (res : List Package) : PrepareResult :=
  let missing := missingNames names res
  if missing.isEmpty then
    let outdated := outdatedList e res
    if outdated.isEmpty then PrepareResult.nothingToDo
    else PrepareResult.ok (sortByName outdated)
  else PrepareResult.fatal missing

/-- One external side-effecting action of the orchestrator, tagged with the
build base it acts on: `git clone`, `git fetch`, showing the diff,
`git merge`, opening the editor on the PKGBUILD, and the build step
(`makepkg --force --syncdeps` followed by the `repo-add` publish). -/
inductive Step where
  | clone (base : String)
  | fetch (base : String)
  | showDiff (base : String)
  | merge (base : String)
  | edit (base : String)
  | build (base : String)
deriving DecidableEq, Repr

/-- The build-unit grouping of `sync` and `update` (`main.go` lines 259-262
and 298-301): the set of `PackageBase` values of the outdated packages.  Go
iterates the map in unspecified order; the model determinizes it as the
deduplicated list in first-occurrence order. -/
def bases (outdated : List Package) : List String :=
  (outdated.map Package.PackageBase).dedup

/-- `promptEdit` (`main.go` lines 243-252): opens the editor unless the
noedit flag is set or the per-unit prompt is declined.  `editAns b` is the
answer given to the "Edit PKGBUILD?" prompt for base `b`. -/
def promptEditSteps (e : Env) (editAns : String → Bool) (b : String) : List Step :=
  if !e.noedit && editAns b then [Step.edit b] else []

/-- The per-unit body of the `sync` loop (`main.go` lines 263-275): clone
the mirror when it does not exist, optionally edit, then build.
`mirrorExists b` is the `os.Stat` test on the mirror directory of `b`. -/
def unitSyncSteps (e : Env) (mirrorExists editAns : String → Bool) (b : String) : List Step :=
  (if mirrorExists b then [] else [Step.clone b]) ++ promptEditSteps e editAns b ++ [Step.build b]

/-- The per-unit body of the `update` loop (`main.go` lines 302-327): fetch,
show the diff when `git diff --quiet` exits 1 and the prompt is accepted,
merge, optionally edit, then build.  `differs b` is the exit-code-1 test,
`wantDiff b` the answer to the "Show diff?" prompt. -/
def unitUpdateSteps (e : Env) (differs wantDiff editAns : String → Bool) (b : String) : List Step :=
  [Step.fetch b] ++ (if differs b && wantDiff b then [Step.showDiff b] else [])
    ++ [Step.merge b] ++ promptEditSteps e editAns b ++ [Step.build b]

/-- Outcome of a whole `sync` or `update` run: the fatal unresolved-name
exit, the "nothing to do" `os.Exit(0)`, the declined-confirmation
`os.Exit(1)`, or a completed run with its sequence of external actions. -/
inductive RunOutcome where
  | fatalMissing (missing : List String)
  | nothingToDo
  | declined
  | completed (steps : List Step)
deriving DecidableEq, Repr

/-- Process exit status of a run outcome: `log.Fatal` and a declined
confirmation exit nonzero, the other paths exit 0. -/
def RunOutcome.exitCode : RunOutcome → Nat
  | RunOutcome.fatalMissing _ => 1
  | RunOutcome.nothingToDo => 0
  | RunOutcome.declined => 1
  | RunOutcome.completed _ => 0

/-- External side-effecting actions a run outcome performed: only a
completed run performs any. -/
def RunOutcome.steps : RunOutcome → List Step
  | RunOutcome.completed s => s
  | _ => []

/-- `sync` (`main.go` lines 254-276): reconcile, then gate the entire batch
on one confirmation prompt (`proceed`), then process each build unit once.
-/
def sync (e : Env) (mirrorExists editAns : String → Bool) (proceed : Bool)
    (names : List String) (res : List Package) : RunOutcome :=
  match prepare e names res with
  | PrepareResult.fatal m => RunOutcome.fatalMissing m
  | PrepareResult.nothingToDo => RunOutcome.nothingToDo
  | PrepareResult.ok outdated =>
      if proceed then
        RunOutcome.completed ((bases outdated).flatMap (unitSyncSteps e mirrorExists editAns))
      else RunOutcome.declined

/-- `update` (`main.go` lines 285-328): like `sync` but over the full
installed-name enumeration and with the fetch/diff/merge unit body. -/
def update (e : Env) (installedNames : List String) (differs wantDiff editAns : String → Bool)
    (proceed : Bool) (res : List Package) : RunOutcome :=
  match prepare e installedNames res with
  | PrepareResult.fatal m => RunOutcome.fatalMissing m
  | PrepareResult.nothingToDo => RunOutcome.nothingToDo
  | PrepareResult.ok outdated =>
      if proceed then
        RunOutcome.completed ((bases outdated).flatMap (unitUpdateSteps e differs wantDiff editAns))
      else RunOutcome.declined

/-- One locally installed package as `clean` sees it through libalpm: its
build base (`alpm_pkg_get_base`) and its artifact filename
(`alpm_pkg_get_filename`). -/
structure LocalPkg where
  base : String
  filename : String
deriving DecidableEq, Repr

/-- Keep test of the cache sweep (`main.go` line 349): the entry name is an
installed build base or installed artifact filename, or carries the
archive file-name prefix `dbname ++ "."`. -/
def keepName (installedPkgs : List LocalPkg) (name : String) : Bool :=
  installedPkgs.any (fun p => p.base == name || p.filename == name)
    || hasPrefixB name (dbname ++ ".")

/-- `clean` (`main.go` lines 330-367) on the cache-directory listing
`entries`: returns the entries surviving the sweep and the garbage it
deletes.  The `git clean -dfx` pass inside kept mirror directories removes
only files below them and never changes the top-level listing. -/
def clean (installedPkgs : List LocalPkg) (entries : List String) :
    List String × List String :=
  (entries.filter (keepName installedPkgs),
   entries.filter (fun n => !keepName installedPkgs n))

/-- Classification of one command-line argument by `parser` (`main.go`
lines 384-408).  An argument starting with `-` is byte-sliced as `a[2:]`,
which in Go panics with a slice-bounds error when `len(a) < 2`; the
explicit bounds test here is the embedding of that runtime check.  The
flag names are ASCII, so Go byte slicing and character-based `drop`
agree on the classification. -/
inductive ArgClass where
  | help
  | setDevel
  | setForce
  | setNoedit
  | invalidOption (a : String)
  | panicSliceOutOfRange
  | operand (a : String)
deriving DecidableEq, Repr

/-- The loop body of `parser` on a single argument. -/
def classifyArg (a : String) : ArgClass :=
  if hasPrefixB a "-" then
    if a.length < 2 then ArgClass.panicSliceOutOfRange
    else
      match String.mk (a.data.drop 2) with
      | "help" => ArgClass.help
      | "devel" => ArgClass.setDevel
      | "force" => ArgClass.setForce
      | "noedit" => ArgClass.setNoedit
      | _ => ArgClass.invalidOption a
  else ArgClass.operand a

/-- Outcome of `parser` over the whole argument vector. -/
inductive ParseOutcome where
  | usageExit
  | fatalInvalid (a : String)
  | panicked
  | fatalNoOperation
  | ok (op : String) (args : List String) (force devel noedit : Bool)
deriving DecidableEq, Repr

/-- `parser` (`main.go` lines 384-408): fold over the arguments, setting
flags, collecting operands, and stopping at usage, an invalid option, or
the slice panic; afterwards the first operand is the operation. -/
def parserRun (force devel noedit : Bool) (acc : List String) :
    List String → ParseOutcome
  | [] =>
      match acc with
      | [] => ParseOutcome.fatalNoOperation
      | op :: rest => ParseOutcome.ok op rest force devel noedit
  | a :: rest =>
      match classifyArg a with
      | ArgClass.help => ParseOutcome.usageExit
      | ArgClass.setDevel => parserRun force true noedit acc rest
      | ArgClass.setForce => parserRun true devel noedit acc rest
      | ArgClass.setNoedit => parserRun force devel true acc rest
      | ArgClass.invalidOption s => ParseOutcome.fatalInvalid s
      | ArgClass.panicSliceOutOfRange => ParseOutcome.panicked
      | ArgClass.operand s => parserRun force devel noedit (acc ++ [s]) rest

/-- The strict less function passed to `sort.Slice` by `search` (`main.go`
lines 91-96): popularity first, vote count as tie-break, both ascending. -/
def searchLess (p q : Package) : Bool :=
  if p.Popularity = q.Popularity then decide (p.NumVotes < q.NumVotes)
  else decide (p.Popularity < q.Popularity)

/-- The total order induced by `searchLess`: `sort.Slice` guarantees the
result is sorted under the complement of its less function. -/
def searchLe (p q : Package) : Prop := searchLess q p = false

instance instDecSearchLe : DecidableRel searchLe :=
  fun p q => inferInstanceAs (Decidable (searchLess q p = false))

/-- The ordering claimed by the specification: popularity ascending with
vote count ascending as tie-break. -/
def popVotesLe (p q : Package) : Prop :=
  p.Popularity < q.Popularity ∨ (p.Popularity = q.Popularity ∧ p.NumVotes ≤ q.NumVotes)

/-- The sort performed by `search` (`main.go` lines 91-96): `sort.Slice`
is documented to produce some permutation of the slice ordered by the
given less function, and is documented as NOT stable.  It is therefore
modelled by its contract: `sortSlicePost l out` holds of every output
`out` the sort may produce on input `l`.  Every theorem about the search
order quantifies over all such admissible outputs. -/
def sortSlicePost (l out : List Package) : Prop :=
  out.Perm l ∧ List.Sorted searchLe out

/-- The specification side of the stability assertion: the stable sort of
the results by the claimed keys, written per the spec words ("stable sort
by popularity ascending, then vote count ascending as tie-break").
Insertion sort under the induced order is the canonical stable sort; this
definition exists only to compare the claimed stable order with what the
code's sorting contract admits. -/
def specStableSort (l : List Package) : List Package := List.insertionSort searchLe l

/-! Concrete fixtures used to instantiate the theorems below. -/

/-- A minimal installed, up-to-date package environment: the comparator
judges nothing newer and no flag is set. -/
def envNoCmp : Env where
  force := false
  devel := false
  noedit := false
  installed := fun _ => some "1-1"
  vercmp := fun _ _ => 0
  vcsVersion := fun _ _ => ""

/-- `envNoCmp` with the force flag set. -/
def envForce : Env := { envNoCmp with force := true }

/-- An environment with nothing installed and a comparator that judges any
version strictly newer than the empty local version. -/
def envEmptyOlder : Env where
  force := false
  devel := false
  noedit := false
  installed := fun _ => none
  vercmp := fun _ l => if l = "" then 1 else 0
  vcsVersion := fun _ _ => ""

/-- Devel-check environment: devel flag set, `foo-git` installed, and a
source-inspection version map returning `2-1`. -/
def envDevel : Env where
  force := false
  devel := true
  noedit := false
  installed := fun n => if n = "foo-git" then some "0-1" else none
  vercmp := fun _ _ => 0
  vcsVersion := fun _ _ => "2-1"

/-- `envDevel` with nothing installed. -/
def envDevelNone : Env := { envDevel with installed := fun _ => none }

/-- Fetched record of package `a` of build base `base1`. -/
def pkgA : Package := { Name := "a", Version := "1-1", PackageBase := "base1" }

/-- Fetched record of package `b`, sharing build base `base1` with `pkgA`. -/
def pkgB : Package := { Name := "b", Version := "2-1", PackageBase := "base1" }

/-- Fetched record of the development package `foo-git` of base `foo`. -/
def pkgGit : Package := { Name := "foo-git", PackageBase := "foo", Version := "1-1" }

/-- Search fixture: popularity 1, 5 votes. -/
def sP1 : Package := { Popularity := 1, NumVotes := 5 }

/-- Search fixture: popularity 2, 1 vote. -/
def sP2 : Package := { Popularity := 2, NumVotes := 1 }

/-- Search fixture: popularity 1, 2 votes. -/
def sP3 : Package := { Popularity := 1, NumVotes := 2 }

/-- Search fixture with a fully tied sort key: popularity 0, 0 votes. -/
def tieA : Package := { Name := "first", Popularity := 0, NumVotes := 0 }

/-- Second fixture with the same fully tied sort key as `tieA`. -/
def tieB : Package := { Name := "second", Popularity := 0, NumVotes := 0 }

/-! ## Theorems -/

/-- C1: for every fetched record (whose locally observed version starts out
empty) the reconciled record is in the outdated set iff the force flag is
set or the external comparator judges its (possibly overridden) remote
version strictly newer than its locally observed version; and, assuming
the comparator property stated by the specification (an empty local
version always compares as older, which holds of the external
`alpm_pkg_vercmp`), a record that is not installed is always outdated. -/
theorem staleness_policy (e : Env) (res : List Package) (r : Package)
    (hr : r ∈ res) (hold : r.OldVersion = "")
    (hcmp : ∀ v, 0 < e.vercmp v "") :
    (reconcileRecord e r ∈ outdatedList e res ↔
      (e.force = true ∨
        0 < e.vercmp (reconcileRecord e r).Version (reconcileRecord e r).OldVersion))
    ∧ (e.installed r.Name = none → reconcileRecord e r ∈ outdatedList e res) := by
  have hmem : reconcileRecord e r ∈ res.map (reconcileRecord e) :=
    List.mem_map_of_mem _ hr
  have hiff : reconcileRecord e r ∈ outdatedList e res ↔
      (e.force = true ∨
        0 < e.vercmp (reconcileRecord e r).Version (reconcileRecord e r).OldVersion) := by
    unfold outdatedList
    constructor
    · intro h
      have h2 := (List.mem_filter.mp h).2
      simpa [isOutdated] using h2
    · intro h
      exact List.mem_filter.mpr ⟨hmem, by simpa [isOutdated] using h⟩
  refine ⟨hiff, fun hnone => ?_⟩
  have hrr : reconcileRecord e r = r := by
    unfold reconcileRecord
    rw [hnone]
  rw [hiff, hrr]
  exact Or.inr (by rw [hold]; exact hcmp r.Version)

/-- C1 witness: the theorem instantiated at a concrete uninstalled record
and a comparator that ranks every version above the empty one. -/
theorem staleness_policy_witness :
    (reconcileRecord envEmptyOlder pkgA ∈ outdatedList envEmptyOlder [pkgA] ↔
      (envEmptyOlder.force = true ∨
        0 < envEmptyOlder.vercmp (reconcileRecord envEmptyOlder pkgA).Version
          (reconcileRecord envEmptyOlder pkgA).OldVersion))
    ∧ (envEmptyOlder.installed pkgA.Name = none →
        reconcileRecord envEmptyOlder pkgA ∈ outdatedList envEmptyOlder [pkgA]) :=
  staleness_policy envEmptyOlder [pkgA] pkgA (by decide) rfl
    (fun v => by simp [envEmptyOlder])

/-- C2: whenever the registry response (one record per distinct upstream
name, each a requested name) omits at least one requested name, `prepare`
fails fatally, the unresolved-name list of the failure contains exactly
the requested names absent from the response (hence every one of them),
and no outdated set is ever returned — the request is entirely rejected
rather than partially honored. -/
theorem prepare_lists_all_missing (e : Env) (names : List String) (res : List Package)
    (hnd : (res.map Package.Name).Nodup)
    (hsub : ∀ r ∈ res, r.Name ∈ names)
    (hmiss : ∃ n ∈ names, n ∉ res.map Package.Name) :
    (∃ ms, prepare e names res = PrepareResult.fatal ms
      ∧ ms ≠ []
      ∧ (∀ n, n ∈ ms ↔ (n ∈ names ∧ n ∉ res.map Package.Name)))
    ∧ (∀ out, prepare e names res ≠ PrepareResult.ok out) := by
  obtain ⟨n0, hn0, hn0r⟩ := hmiss
  have hlen : ¬ names.length = res.length := by
    have hnodup2 : (n0 :: res.map Package.Name).Nodup :=
      List.nodup_cons.mpr ⟨hn0r, hnd⟩
    have hsub2 : (n0 :: res.map Package.Name) ⊆ names := by
      intro x hx
      rcases List.mem_cons.mp hx with h | h
      · exact h ▸ hn0
      · obtain ⟨r, hrres, hrx⟩ := List.mem_map.mp h
        exact hrx ▸ hsub r hrres
    have hle := (hnodup2.subperm hsub2).length_le
    simp only [List.length_cons, List.length_map] at hle
    omega
  have hchar : ∀ n, n ∈ missingNames names res ↔
      (n ∈ names ∧ n ∉ res.map Package.Name) := by
    intro n
    unfold missingNames
    rw [if_neg hlen]
    simp [List.mem_filter, List.any_eq_true, List.mem_map]
  have hn0m : n0 ∈ missingNames names res := (hchar n0).mpr ⟨hn0, hn0r⟩
  have hne : missingNames names res ≠ [] := by
    intro h
    rw [h] at hn0m
    exact absurd hn0m (List.not_mem_nil n0)
  have hempty : (missingNames names res).isEmpty = false := by
    rcases h : missingNames names res with _ | ⟨a, l⟩
    · exact absurd h hne
    · rfl
  have hfatal : prepare e names res = PrepareResult.fatal (missingNames names res) := by
    unfold prepare
    simp [hempty]
  refine ⟨⟨missingNames names res, hfatal, hne, hchar⟩, fun out hout => ?_⟩
  rw [hfatal] at hout
  exact PrepareResult.noConfusion hout

/-- C2 witness: requesting `a` and `b` while the response only resolves
`a` fails fatally with exactly `b` unresolved and returns no outdated
set. -/
theorem prepare_lists_all_missing_witness :
    (∃ ms, prepare envNoCmp ["a", "b"] [pkgA] = PrepareResult.fatal ms
      ∧ ms ≠ []
      ∧ (∀ n, n ∈ ms ↔ (n ∈ ["a", "b"] ∧ n ∉ [pkgA].map Package.Name)))
    ∧ (∀ out, prepare envNoCmp ["a", "b"] [pkgA] ≠ PrepareResult.ok out) :=
  prepare_lists_all_missing envNoCmp ["a", "b"] [pkgA]
    (by decide) (by decide) (by decide)

/-- Reconciliation never changes the package name. -/
theorem reconcileRecord_Name (e : Env) (r : Package) :
    (reconcileRecord e r).Name = r.Name := by
  unfold reconcileRecord
  cases e.installed r.Name <;> rfl

/-- C3 counterexample: package `a` exists upstream but is installed and up
to date, so `prepare` takes the "nothing to do" exit and returns no
`ReconciledPackage` at all — the requested name is omitted from the
result, refuting "exactly one per requested name". -/
theorem prepare_one_per_name_cex :
    ¬ ∃ out, prepare envNoCmp ["a"] [pkgA] = PrepareResult.ok out
        ∧ out.map Package.Name = ["a"] := by
  rintro ⟨out, hout, -⟩
  have hval : prepare envNoCmp ["a"] [pkgA] = PrepareResult.nothingToDo := rfl
  rw [hval] at hout
  exact PrepareResult.noConfusion hout

/-- Whatever list `prepare` returns is the name-sorted outdated set. -/
theorem prepare_ok_eq (e : Env) (names : List String) (res : List Package)
    (out : List Package) (h : prepare e names res = PrepareResult.ok out) :
    out = sortByName (outdatedList e res) := by
  simp only [prepare] at h
  split at h
  · split at h
    · exact PrepareResult.noConfusion h
    · injection h with h2
      exact h2.symm
  · exact PrepareResult.noConfusion h

/-- Reconciling every record of a response leaves the name list
unchanged. -/
theorem map_reconcile_Name (e : Env) (res : List Package) :
    (res.map (reconcileRecord e)).map Package.Name = res.map Package.Name := by
  rw [List.map_map]
  apply List.map_congr_left
  intro r _
  exact reconcileRecord_Name e r

/-- With the force flag set and a one-record-per-requested-name response,
`prepare` succeeds and returns exactly one record per requested name. -/
theorem prepare_force_ok (e : Env) (names : List String) (res : List Package)
    (hf : e.force = true)
    (hperm : (res.map Package.Name).Perm names)
    (hnd : names.Nodup) (hne : names ≠ []) :
    ∃ out, prepare e names res = PrepareResult.ok out
      ∧ (out.map Package.Name).Perm names
      ∧ (out.map Package.Name).Nodup := by
  have hlen : names.length = res.length := by
    have h := hperm.length_eq
    simp only [List.length_map] at h
    omega
  have hmiss : missingNames names res = [] := by
    unfold missingNames
    rw [if_pos hlen]
  have hfilter : outdatedList e res = res.map (reconcileRecord e) := by
    unfold outdatedList
    apply List.filter_eq_self.mpr
    intro a _
    simp [isOutdated, hf]
  have hnames : ((outdatedList e res).map Package.Name).Perm names := by
    rw [hfilter, List.map_map]
    have h1 : res.map (Package.Name ∘ reconcileRecord e) = res.map Package.Name := by
      apply List.map_congr_left
      intro r _
      exact reconcileRecord_Name e r
    rw [h1]
    exact hperm
  have hresne : res ≠ [] := by
    intro h
    subst h
    exact hne (List.Perm.nil_eq hperm).symm
  have houtne : outdatedList e res ≠ [] := by
    rw [hfilter]
    intro h
    exact hresne (List.map_eq_nil_iff.mp h)
  have hempty2 : (outdatedList e res).isEmpty = false := by
    rcases h : outdatedList e res with _ | ⟨a, l⟩
    · exact absurd h houtne
    · rfl
  have hsortperm : ((sortByName (outdatedList e res)).map Package.Name).Perm names := by
    have hsort : (sortByName (outdatedList e res)).Perm (outdatedList e res) :=
      List.perm_insertionSort nameLe _
    exact (hsort.map Package.Name).trans hnames
  refine ⟨sortByName (outdatedList e res), ?_, hsortperm, hsortperm.nodup_iff.mpr hnd⟩
  unfold prepare
  simp [hmiss, hempty2]

/-- C3 (amended): when every requested name exists upstream (the response
carries exactly one record per requested name), every run of `prepare`
that returns an outdated set returns at most one `ReconciledPackage` per
requested name — the returned names are duplicate-free and all requested —
and when additionally the force flag is set it returns exactly one per
requested name, with no omissions.  Without force, packages the comparator
judges up to date are omitted. -/
theorem prepare_per_name (e : Env) (names : List String) (res : List Package)
    (hperm : (res.map Package.Name).Perm names)
    (hnd : names.Nodup) :
    (∀ out, prepare e names res = PrepareResult.ok out →
      (out.map Package.Name).Nodup ∧ ∀ n ∈ out.map Package.Name, n ∈ names)
    ∧ (e.force = true → names ≠ [] →
      ∃ out, prepare e names res = PrepareResult.ok out
        ∧ (out.map Package.Name).Perm names
        ∧ (out.map Package.Name).Nodup) := by
  constructor
  · intro out hout
    have heq := prepare_ok_eq e names res out hout
    have hsortperm : ((sortByName (outdatedList e res)).map Package.Name).Perm
        ((outdatedList e res).map Package.Name) :=
      (List.perm_insertionSort nameLe _).map Package.Name
    have hsl : List.Sublist ((outdatedList e res).map Package.Name)
        (res.map Package.Name) := by
      have h0 : List.Sublist (outdatedList e res) (res.map (reconcileRecord e)) :=
        List.filter_sublist _
      have h1 := h0.map Package.Name
      rwa [map_reconcile_Name] at h1
    have hresnd : (res.map Package.Name).Nodup := hperm.nodup_iff.mpr hnd
    constructor
    · rw [heq]
      exact hsortperm.nodup_iff.mpr (hsl.nodup hresnd)
    · intro n hn
      rw [heq] at hn
      exact hperm.subset (hsl.subset (hsortperm.mem_iff.mp hn))
  · intro hf hne
    exact prepare_force_ok e names res hf hperm hnd hne

/-- C3 witness: for the single requested name `a` resolved by one record,
the returned set is duplicate-free with only requested names, and with
force set it is exactly the one requested package. -/
theorem prepare_per_name_witness :
    ((([{ pkgA with OldVersion := "1-1" }] : List Package).map Package.Name).Nodup
      ∧ ∀ n ∈ ([{ pkgA with OldVersion := "1-1" }] : List Package).map Package.Name,
          n ∈ ["a"])
    ∧ (envForce.force = true → (["a"] : List String) ≠ [] →
      ∃ out, prepare envForce ["a"] [pkgA] = PrepareResult.ok out
        ∧ (out.map Package.Name).Perm ["a"]
        ∧ (out.map Package.Name).Nodup) :=
  ⟨(prepare_per_name envForce ["a"] [pkgA] (by decide) (by decide)).1
      [{ pkgA with OldVersion := "1-1" }] (by decide),
   (prepare_per_name envForce ["a"] [pkgA] (by decide) (by decide)).2⟩

/-- The sync unit body builds base `b` once if it is the unit of the loop
iteration and never otherwise. -/
theorem count_build_unitSyncSteps (e : Env) (m ed : String → Bool) (b b2 : String) :
    (unitSyncSteps e m ed b2).count (Step.build b) = if b2 = b then 1 else 0 := by
  unfold unitSyncSteps promptEditSteps
  rcases m b2 <;> rcases (!e.noedit && ed b2) <;>
    simp [List.count_append, List.count_cons, List.count_nil, beq_iff_eq]

/-- The update unit body builds base `b` once if it is the unit of the
loop iteration and never otherwise. -/
theorem count_build_unitUpdateSteps (e : Env) (d w ed : String → Bool) (b b2 : String) :
    (unitUpdateSteps e d w ed b2).count (Step.build b) = if b2 = b then 1 else 0 := by
  unfold unitUpdateSteps promptEditSteps
  rcases (d b2 && w b2) <;> rcases (!e.noedit && ed b2) <;>
    simp [List.count_append, List.count_cons, List.count_nil, beq_iff_eq]

/-- A base outside the iterated list is never built. -/
theorem count_build_flatMap_zero (f : String → List Step) (b : String)
    (hf : ∀ b2, (f b2).count (Step.build b) = if b2 = b then 1 else 0)
    (bs : List String) (hb : b ∉ bs) :
    (bs.flatMap f).count (Step.build b) = 0 := by
  induction bs with
  | nil => rfl
  | cons a l ih =>
      rw [List.flatMap_cons, List.count_append]
      have ha : ¬ a = b := fun h => hb (h ▸ List.mem_cons_self a l)
      rw [hf a, if_neg ha, ih (fun h => hb (List.mem_cons_of_mem a h))]

/-- A base occurring in a duplicate-free iterated list is built exactly
once over the whole loop. -/
theorem count_build_flatMap_one (f : String → List Step) (b : String)
    (hf : ∀ b2, (f b2).count (Step.build b) = if b2 = b then 1 else 0)
    (bs : List String) (hnd : bs.Nodup) (hb : b ∈ bs) :
    (bs.flatMap f).count (Step.build b) = 1 := by
  induction bs with
  | nil => cases hb
  | cons a l ih =>
      rw [List.flatMap_cons, List.count_append]
      obtain ⟨hal, hlnd⟩ := List.nodup_cons.mp hnd
      rcases List.mem_cons.mp hb with h | h
      · have hbl : b ∉ l := by rw [h]; exact hal
        rw [hf a, if_pos h.symm, count_build_flatMap_zero f b hf l hbl]
      · have ha : ¬ a = b := fun hab => hal (hab ▸ h)
        rw [hf a, if_neg ha, ih hlnd h]

/-- C4: in both the sync and the update loop, a build base owning at least
one outdated package is processed as exactly one unit — its build step
occurs exactly once in the whole run, however many of its packages are
outdated. -/
theorem build_once_per_base (e : Env) (mirrorExists editAns differs wantDiff : String → Bool)
    (outdated : List Package) (b : String)
    (hb : ∃ p ∈ outdated, p.PackageBase = b) :
    ((bases outdated).flatMap (unitSyncSteps e mirrorExists editAns)).count (Step.build b) = 1
    ∧ ((bases outdated).flatMap
        (unitUpdateSteps e differs wantDiff editAns)).count (Step.build b) = 1 := by
  have hnd : (bases outdated).Nodup := List.nodup_dedup _
  have hbm : b ∈ bases outdated := by
    unfold bases
    rw [List.mem_dedup]
    obtain ⟨p, hp, hpb⟩ := hb
    exact List.mem_map.mpr ⟨p, hp, hpb⟩
  exact ⟨count_build_flatMap_one _ b
      (count_build_unitSyncSteps e mirrorExists editAns b) _ hnd hbm,
    count_build_flatMap_one _ b
      (count_build_unitUpdateSteps e differs wantDiff editAns b) _ hnd hbm⟩

/-- C4 witness: two outdated packages sharing base `base1` yield exactly
one build of `base1` in either loop. -/
theorem build_once_per_base_witness :
    ((bases [pkgA, pkgB]).flatMap
        (unitSyncSteps envForce (fun _ => false) (fun _ => false))).count
      (Step.build "base1") = 1
    ∧ ((bases [pkgA, pkgB]).flatMap
        (unitUpdateSteps envForce (fun _ => false) (fun _ => false)
          (fun _ => false))).count (Step.build "base1") = 1 :=
  build_once_per_base envForce (fun _ => false) (fun _ => false) (fun _ => false)
    (fun _ => false) [pkgA, pkgB] "base1" (by decide)

/-- C5 counterexample: with the devel flag set and a `-git` record that is
not installed, the remote version is left unchanged instead of being
replaced by the source-inspected version — the override of the claim does
not happen for uninstalled records. -/
theorem devel_override_cex :
    (reconcileRecord envDevelNone pkgGit).Version ≠
      envDevelNone.vcsVersion pkgGit.PackageBase pkgGit.Name := by decide

/-- C5 (amended): for a fetched record that is currently installed, whose
name ends with the development suffix `-git` and with the devel flag set,
reconciliation replaces the remote version with the version selected by
this package's name from the build tool's source-inspection version map of
its build unit, and records the installed version as the local one.
Uninstalled records are not overridden. -/
theorem devel_override_installed (e : Env) (r : Package) (old : String)
    (hi : e.installed r.Name = some old) (hd : e.devel = true)
    (hs : hasSuffixB r.Name "-git" = true) :
    (reconcileRecord e r).Version = e.vcsVersion r.PackageBase r.Name
    ∧ (reconcileRecord e r).OldVersion = old := by
  unfold reconcileRecord
  rw [hi]
  simp [hd, hs]

/-- C5 witness: the installed devel package `foo-git` has its remote
version replaced by the source-inspected `2-1`. -/
theorem devel_override_installed_witness :
    (reconcileRecord envDevel pkgGit).Version =
      envDevel.vcsVersion pkgGit.PackageBase pkgGit.Name
    ∧ (reconcileRecord envDevel pkgGit).OldVersion = "0-1" :=
  devel_override_installed envDevel pkgGit "0-1" (by decide) rfl (by decide)

/-- The strict less function of `search` holds exactly when the
(popularity, votes) key of the first record is lexicographically strictly
below the key of the second. -/
theorem searchLess_iff (p q : Package) : searchLess p q = true ↔
    (p.Popularity < q.Popularity ∨
      (p.Popularity = q.Popularity ∧ p.NumVotes < q.NumVotes)) := by
  unfold searchLess
  by_cases h : p.Popularity = q.Popularity
  · rw [if_pos h]
    simp [h]
  · rw [if_neg h]
    simp [h]

/-- The order `sort.Slice` establishes, the complement of the less
function, is exactly the claimed ascending (popularity, votes) order. -/
theorem searchLe_iff (p q : Package) : searchLe p q ↔ popVotesLe p q := by
  unfold searchLe popVotesLe
  rw [← Bool.not_eq_true, searchLess_iff]
  constructor
  · intro h
    push_neg at h
    obtain ⟨h1, h2⟩ := h
    rcases lt_or_eq_of_le h1 with hlt | heq
    · exact Or.inl hlt
    · exact Or.inr ⟨heq, h2 heq.symm⟩
  · intro h hcon
    rcases h with h | ⟨heq, hle⟩
    · rcases hcon with hc | ⟨hceq, _⟩
      · exact lt_asymm h hc
      · rw [hceq] at h
        exact lt_irrefl _ h
    · rcases hcon with hc | ⟨_, hcv⟩
      · rw [heq] at hc
        exact lt_irrefl _ hc
      · exact absurd hcv (not_lt.mpr hle)

/-- C6 counterexample: on two records with fully tied (popularity, votes)
keys, the sorting contract of `sort.Slice` (which is documented as not
stable) admits the reversed output, which differs from the stable sort of
the input — so the printed order is not guaranteed to be a stable sort. -/
theorem search_stable_cex :
    sortSlicePost [tieA, tieB] [tieB, tieA]
    ∧ specStableSort [tieA, tieB] = [tieA, tieB]
    ∧ ([tieB, tieA] : List Package) ≠ [tieA, tieB] := by
  refine ⟨⟨by decide, by decide⟩, by decide, by decide⟩

/-- C6 (amended): every output the search sort may produce is a
permutation of the results sorted ascending by popularity with vote count
ascending as tie-break (stability is not guaranteed by `sort.Slice`); in
particular, on the concrete input [(pop 1, votes 5), (pop 2, votes 1),
(pop 1, votes 2)], whose keys are pairwise distinct, every admissible
output is exactly [(pop 1, votes 2), (pop 1, votes 5), (pop 2, votes 1)].
-/
theorem search_ordering :
    (∀ l out : List Package, sortSlicePost l out →
      out.Perm l ∧ List.Sorted popVotesLe out)
    ∧ (∀ out : List Package, sortSlicePost [sP1, sP2, sP3] out →
      out = [sP3, sP1, sP2]) := by
  constructor
  · rintro l out ⟨hp, hs⟩
    exact ⟨hp, hs.imp (fun h => (searchLe_iff _ _).mp h)⟩
  · rintro out ⟨hp, hs⟩
    have hlen : out.length = 3 := by simpa using hp.length_eq
    rcases out with _ | ⟨x, _ | ⟨y, _ | ⟨z, _ | ⟨w, rest⟩⟩⟩⟩
    · simp at hlen
    · simp at hlen
    · simp at hlen
    · have hx := hp.subset (show x ∈ [x, y, z] by simp)
      have hy := hp.subset (show y ∈ [x, y, z] by simp)
      have hz := hp.subset (show z ∈ [x, y, z] by simp)
      simp only [List.mem_cons, List.not_mem_nil, or_false] at hx hy hz
      rcases hx with rfl | rfl | rfl <;> rcases hy with rfl | rfl | rfl <;>
        rcases hz with rfl | rfl | rfl <;>
        first
          | rfl
          | exact absurd hp (by decide)
          | exact absurd hs (by decide)
    · simp only [List.length_cons] at hlen
      omega

/-- C6 witness: the claimed output order for the concrete input satisfies
the sorting contract and is, per the theorem, the only admissible one. -/
theorem search_ordering_witness :
    (([sP3, sP1, sP2] : List Package).Perm [sP1, sP2, sP3]
        ∧ List.Sorted popVotesLe [sP3, sP1, sP2])
    ∧ ([sP3, sP1, sP2] : List Package) = [sP3, sP1, sP2] :=
  ⟨search_ordering.1 [sP1, sP2, sP3] [sP3, sP1, sP2] ⟨by decide, by decide⟩,
    search_ordering.2 [sP3, sP1, sP2] ⟨by decide, by decide⟩⟩

/-- C7: when the reconciled outdated set is empty (and every requested
name resolved), `prepare` takes the "There is nothing to do" path — a
controlled successful termination with exit status 0 — and neither a sync
nor an update run performs any build-unit processing. -/
theorem nothing_to_do_exit_zero (e : Env) (mex ed di wd : String → Bool) (proceed : Bool)
    (names : List String) (res : List Package)
    (hmiss : missingNames names res = [])
    (hout : outdatedList e res = []) :
    prepare e names res = PrepareResult.nothingToDo
    ∧ sync e mex ed proceed names res = RunOutcome.nothingToDo
    ∧ update e names di wd ed proceed res = RunOutcome.nothingToDo
    ∧ (sync e mex ed proceed names res).exitCode = 0
    ∧ (sync e mex ed proceed names res).steps = []
    ∧ (update e names di wd ed proceed res).exitCode = 0
    ∧ (update e names di wd ed proceed res).steps = [] := by
  have hp : prepare e names res = PrepareResult.nothingToDo := by
    unfold prepare
    simp [hmiss, hout]
  have hs : sync e mex ed proceed names res = RunOutcome.nothingToDo := by
    unfold sync
    rw [hp]
  have hu : update e names di wd ed proceed res = RunOutcome.nothingToDo := by
    unfold update
    rw [hp]
  exact ⟨hp, hs, hu, by rw [hs]; rfl, by rw [hs]; rfl, by rw [hu]; rfl, by rw [hu]; rfl⟩

/-- C7 witness: an installed, up-to-date single package yields the
"nothing to do" exit in both entry points. -/
theorem nothing_to_do_exit_zero_witness :
    prepare envNoCmp ["a"] [pkgA] = PrepareResult.nothingToDo
    ∧ sync envNoCmp (fun _ => true) (fun _ => true) true ["a"] [pkgA] =
        RunOutcome.nothingToDo
    ∧ update envNoCmp ["a"] (fun _ => true) (fun _ => true) (fun _ => true) true [pkgA] =
        RunOutcome.nothingToDo
    ∧ (sync envNoCmp (fun _ => true) (fun _ => true) true ["a"] [pkgA]).exitCode = 0
    ∧ (sync envNoCmp (fun _ => true) (fun _ => true) true ["a"] [pkgA]).steps = []
    ∧ (update envNoCmp ["a"] (fun _ => true) (fun _ => true) (fun _ => true) true
        [pkgA]).exitCode = 0
    ∧ (update envNoCmp ["a"] (fun _ => true) (fun _ => true) (fun _ => true) true
        [pkgA]).steps = [] :=
  nothing_to_do_exit_zero envNoCmp (fun _ => true) (fun _ => true) (fun _ => true)
    (fun _ => true) true ["a"] [pkgA] (by decide) (by decide)

/-- C8: whenever reconciliation produced a non-empty outdated set, a sync
or update run whose single batch-level confirmation prompt is declined
terminates with nonzero exit status and performs no external action at all
— no clone, fetch, diff, merge, edit or build step of any unit, hence no
mutation of the cache directory, installed registry or repository
archive. -/
theorem declined_gate (e : Env) (mex ed di wd : String → Bool)
    (names : List String) (res : List Package) (out : List Package)
    (hok : prepare e names res = PrepareResult.ok out) :
    sync e mex ed false names res = RunOutcome.declined
    ∧ update e names di wd ed false res = RunOutcome.declined
    ∧ (sync e mex ed false names res).exitCode = 1
    ∧ (sync e mex ed false names res).steps = []
    ∧ (update e names di wd ed false res).exitCode = 1
    ∧ (update e names di wd ed false res).steps = [] := by
  have hs : sync e mex ed false names res = RunOutcome.declined := by
    unfold sync
    rw [hok]
    rfl
  have hu : update e names di wd ed false res = RunOutcome.declined := by
    unfold update
    rw [hok]
    rfl
  exact ⟨hs, hu, by rw [hs]; rfl, by rw [hs]; rfl, by rw [hu]; rfl, by rw [hu]; rfl⟩

/-- C8 witness: with force set, reconciliation of `a` succeeds, and the
declined prompt stops both entry points with exit status 1 and an empty
step list. -/
theorem declined_gate_witness :
    sync envForce (fun _ => true) (fun _ => true) false ["a"] [pkgA] =
        RunOutcome.declined
    ∧ update envForce ["a"] (fun _ => true) (fun _ => true) (fun _ => true) false
        [pkgA] = RunOutcome.declined
    ∧ (sync envForce (fun _ => true) (fun _ => true) false ["a"] [pkgA]).exitCode = 1
    ∧ (sync envForce (fun _ => true) (fun _ => true) false ["a"] [pkgA]).steps = []
    ∧ (update envForce ["a"] (fun _ => true) (fun _ => true) (fun _ => true) false
        [pkgA]).exitCode = 1
    ∧ (update envForce ["a"] (fun _ => true) (fun _ => true) (fun _ => true) false
        [pkgA]).steps = [] :=
  declined_gate envForce (fun _ => true) (fun _ => true) (fun _ => true) (fun _ => true)
    ["a"] [pkgA] [{ pkgA with OldVersion := "1-1" }] (by decide)

/-- C9: the cache sweep is idempotent — every entry surviving a sweep is
in the keep set, so a second sweep over the surviving entries (with the
installed set unchanged) deletes nothing. -/
theorem clean_idempotent (installedPkgs : List LocalPkg) (entries : List String) :
    (clean installedPkgs (clean installedPkgs entries).1).2 = [] := by
  unfold clean
  simp only [List.filter_filter]
  apply List.filter_eq_nil_iff.mpr
  intro a _
  cases h : keepName installedPkgs a <;> simp [h]

/-- C10: for every command-line argument starting with `-`, the loop body
of `parser` is total when the argument has at least two characters — it
yields a recognized flag, the usage exit, or the "invalid option" fatal
error — but on the single-character argument `-` the Go slice `a[2:]` is
out of bounds and the program panics instead of reporting an invalid
option. -/
theorem parser_arg_totality :
    (∀ a : String, hasPrefixB a "-" = true → 2 ≤ a.length →
      classifyArg a = ArgClass.help ∨ classifyArg a = ArgClass.setDevel ∨
      classifyArg a = ArgClass.setForce ∨ classifyArg a = ArgClass.setNoedit ∨
      classifyArg a = ArgClass.invalidOption a)
    ∧ classifyArg "-" = ArgClass.panicSliceOutOfRange := by
  refine ⟨fun a h1 h2 => ?_, by decide⟩
  have hnot : ¬ a.length < 2 := by omega
  unfold classifyArg
  rw [if_pos h1, if_neg hnot]
  split
  · exact Or.inl rfl
  · exact Or.inr (Or.inl rfl)
  · exact Or.inr (Or.inr (Or.inl rfl))
  · exact Or.inr (Or.inr (Or.inr (Or.inl rfl)))
  · exact Or.inr (Or.inr (Or.inr (Or.inr rfl)))

/-- C10 witness: the flag `--force`, the unknown option `-x`, and the
panicking argument `-`. -/
theorem parser_arg_totality_witness :
    (classifyArg "--force" = ArgClass.help ∨ classifyArg "--force" = ArgClass.setDevel ∨
      classifyArg "--force" = ArgClass.setForce ∨
      classifyArg "--force" = ArgClass.setNoedit ∨
      classifyArg "--force" = ArgClass.invalidOption "--force")
    ∧ (classifyArg "-x" = ArgClass.help ∨ classifyArg "-x" = ArgClass.setDevel ∨
      classifyArg "-x" = ArgClass.setForce ∨ classifyArg "-x" = ArgClass.setNoedit ∨
      classifyArg "-x" = ArgClass.invalidOption "-x")
    ∧ classifyArg "-" = ArgClass.panicSliceOutOfRange :=
  ⟨parser_arg_totality.1 "--force" (by decide) (by decide),
   parser_arg_totality.1 "-x" (by decide) (by decide),
   parser_arg_totality.2⟩

end Aur
